import Mathlib

/-
  Verification of the inventory aggregation core of the CNC_MT_Inventory
  dashboard (src/pages/inventory.py and the part-creation handler of
  src/pages/parts.py), as a shallow embedding in Lean.

  Backend tables are modelled as lists of rows; the Python dictionaries that
  the fetchers build are modelled by their lookup functions (`Nat → Option Int`),
  with `d[k] = v` becoming a pointwise update.  Nullable columns are `Option`.
-/

namespace CNCMT

/-- A row of the `parts` table with the columns the inventory and analysis
queries select: `part_id, part_code, part_name, korean_name, vietnamese_name,
category, unit, min_stock, status`.  Nullable columns are `Option`. -/
structure PartRow where
  part_id : Nat
  part_code : String
  part_name : String
  korean_name : Option String
  vietnamese_name : Option String
  category : Option String
  unit : Option String
  min_stock : Option Int
  status : Option String
deriving DecidableEq

/-- A row of the `inventory` table: `part_id, current_quantity` (nullable). -/
structure InvRow where
  part_id : Nat
  current_quantity : Option Int
deriving DecidableEq

/-- A row of the `part_prices` table: `part_id, unit_price, is_current`. -/
structure PriceRow where
  part_id : Nat
  unit_price : Option Int
  is_current : Bool
deriving DecidableEq

/-- Python `row.get(col, 0) or 0`: a null value becomes `0`, any integer is kept
(`0 or 0` is `0`, so the falsiness of `0` does not change the result). -/
def pyOrZero : Option Int → Int
  | none => 0
  | some v => v

/-- The batch slices produced by the Python loop
`for i in range(0, len(part_ids), batch_size): part_ids[i:i+batch_size]`:
batch `j` is the slice of length at most `bs` starting at index `j * bs`. -/
def chunks (bs : Nat) (ids : List Nat) : List (List Nat) :=
  (List.range ((ids.length + bs - 1) / bs)).map (fun j => (ids.drop (j * bs)).take bs)

/-- The empty Python dictionary, seen through lookup. -/
def dempty : Nat → Option Int := fun _ => none

/-- Python `d[k] = v`, seen through lookup. -/
def dinsert (m : Nat → Option Int) (k : Nat) (v : Int) : Nat → Option Int :=
  fun x => if x = k then some v else m x

/-- `for item in rows: d[item.part_id] = item.value or 0`, starting from `m`. -/
def mergeRows (m : Nat → Option Int) (rows : List (Nat × Option Int)) : Nat → Option Int :=
  rows.foldl (fun acc r => dinsert acc r.1 (pyOrZero r.2)) m

/-- One batched fetch over a key/value table: split `ids` into chunks of `bs`,
run one membership-filtered query per chunk, and merge each chunk's rows into
the dictionary in order. -/
def fetchBatchedCore (db : List (Nat × Option Int)) (bs : Nat) (ids : List Nat) :
    Nat → Option Int :=
  (chunks bs ids).foldl
    (fun m b => mergeRows m (db.filter (fun r => decide (r.1 ∈ b)))) dempty

/-- Modelled from the spec: the reference semantics of the Batch Fetcher is a
single unbounded membership query over the whole identifier list, merged into
one dictionary. -/
def fetchSingleQuery (db : List (Nat × Option Int)) (ids : List Nat) : Nat → Option Int :=
  mergeRows dempty (db.filter (fun r => decide (r.1 ∈ ids)))

/-- The value that survives for key `k` after merging `rows` in order: the last
row with key `k`, if any, pushed through the `or 0` null guard. -/
def lastVal (k : Nat) (rows : List (Nat × Option Int)) : Option Int :=
  (rows.reverse.find? (fun r => r.1 == k)).map (fun r => pyOrZero r.2)

theorem chunks_nil (bs : Nat) : chunks bs [] = [] := by
  unfold chunks
  simp only [List.length_nil]
  have h : (0 + bs - 1) / bs = 0 := by
    cases bs with
    | zero => decide
    | succ b => exact Nat.div_eq_of_lt (by omega)
  rw [h]
  rfl

theorem chunks_cons (b : Nat) (x : Nat) (xs : List Nat) :
    chunks (b + 1) (x :: xs) = (x :: xs.take b) :: chunks (b + 1) (xs.drop b) := by
  unfold chunks
  have hcount : ((x :: xs).length + (b + 1) - 1) / (b + 1)
      = ((xs.drop b).length + (b + 1) - 1) / (b + 1) + 1 := by
    simp only [List.length_cons, List.length_drop]
    have e1 : xs.length + 1 + (b + 1) - 1 = xs.length + (b + 1) := by omega
    have e2 : xs.length - b + (b + 1) - 1 = (xs.length - b) + b := by omega
    rw [e1, e2, Nat.add_div_right _ (Nat.succ_pos b)]
    rcases Nat.le_total b xs.length with h | h
    · rw [Nat.sub_add_cancel h]
    · have hz : xs.length - b = 0 := Nat.sub_eq_zero_of_le h
      rw [hz]
      have h1 : xs.length / (b + 1) = 0 := Nat.div_eq_of_lt (by omega)
      have h2 : (0 + b) / (b + 1) = 0 := Nat.div_eq_of_lt (by omega)
      rw [h1, h2]
  rw [hcount, List.range_succ_eq_map, List.map_cons, List.map_map]
  refine congrArg₂ List.cons ?_ ?_
  · simp [List.take_succ_cons]
  · refine List.map_congr_left (fun j hj => ?_)
    show ((x :: xs).drop (Nat.succ j * (b + 1))).take (b + 1)
        = ((xs.drop b).drop (j * (b + 1))).take (b + 1)
    have e3 : Nat.succ j * (b + 1) = (j * (b + 1) + b) + 1 := by
      rw [Nat.succ_eq_add_one]; ring
    rw [e3, List.drop_succ_cons, List.drop_drop]
    have e4 : b + j * (b + 1) = j * (b + 1) + b := by omega
    rw [e4]

theorem chunks_flatten (b : Nat) : ∀ ids : List Nat, (chunks (b + 1) ids).flatten = ids
  | [] => by rw [chunks_nil]; rfl
  | x :: xs => by
    rw [chunks_cons, List.flatten_cons, chunks_flatten b (xs.drop b)]
    rw [List.cons_append, List.take_append_drop]
termination_by ids => ids.length
decreasing_by simp [List.length_drop]; omega

theorem mem_chunks_iff (b : Nat) (ids : List Nat) (k : Nat) :
    (∃ c ∈ chunks (b + 1) ids, k ∈ c) ↔ k ∈ ids := by
  rw [← List.mem_flatten, chunks_flatten]

theorem lastVal_cons (k : Nat) (r : Nat × Option Int) (rs : List (Nat × Option Int)) :
    lastVal k (r :: rs)
      = (lastVal k rs).or (if r.1 == k then some (pyOrZero r.2) else none) := by
  unfold lastVal
  rw [List.reverse_cons, List.find?_append]
  cases h : rs.reverse.find? (fun x => x.1 == k) with
  | some v => simp [Option.or]
  | none =>
    cases hbeq : (r.1 == k) with
    | true => simp [List.find?, hbeq, Option.or]
    | false => simp [List.find?, hbeq, Option.or]

theorem mergeRows_apply (rows : List (Nat × Option Int)) (m : Nat → Option Int) (k : Nat) :
    mergeRows m rows k = (lastVal k rows).or (m k) := by
  induction rows generalizing m with
  | nil => rfl
  | cons r rs ih =>
    show mergeRows (dinsert m r.1 (pyOrZero r.2)) rs k = _
    rw [ih, lastVal_cons]
    cases hL : lastVal k rs with
    | some v => rfl
    | none =>
      simp only [Option.none_or]
      cases hbeq : (r.1 == k) with
      | true =>
        have hk : r.1 = k := beq_iff_eq.mp hbeq
        rw [if_pos rfl]
        show (if k = r.1 then some (pyOrZero r.2) else m k) = _
        rw [if_pos hk.symm]
        rfl
      | false =>
        have hk : r.1 ≠ k := beq_eq_false_iff_ne.mp hbeq
        rw [if_neg (by simp)]
        show (if k = r.1 then some (pyOrZero r.2) else m k) = _
        rw [if_neg (fun he => hk he.symm)]
        rfl

theorem find?_filter_key (l : List (Nat × Option Int)) (p : Nat × Option Int → Bool)
    (k : Nat) (b : Bool) (hp : ∀ r : Nat × Option Int, r.1 = k → p r = b) :
    (l.filter p).find? (fun r => r.1 == k)
      = if b then l.find? (fun r => r.1 == k) else none := by
  induction l with
  | nil => cases b <;> simp
  | cons r rest ih =>
    rw [List.filter_cons]
    cases hbeq : (r.1 == k) with
    | true =>
      have hk : r.1 = k := beq_iff_eq.mp hbeq
      have hpr : p r = b := hp r hk
      have hfind : ∀ l : List (Nat × Option Int),
          List.find? (fun x => x.1 == k) (r :: l) = some r :=
        fun l => List.find?_cons_of_pos l hbeq
      cases b with
      | true =>
        rw [hpr, if_pos rfl, if_pos rfl, hfind, hfind]
      | false =>
        rw [hpr, if_neg Bool.false_ne_true, ih, if_neg Bool.false_ne_true,
          if_neg Bool.false_ne_true]
    | false =>
      have hskip : ∀ l : List (Nat × Option Int),
          List.find? (fun x => x.1 == k) (r :: l) = List.find? (fun x => x.1 == k) l :=
        fun l => List.find?_cons_of_neg l (by simp [hbeq])
      cases hpr : p r with
      | true =>
        rw [if_pos rfl, hskip, ih]
        cases b with
        | true =>
          rw [if_pos rfl, if_pos rfl, hskip]
        | false =>
          rw [if_neg Bool.false_ne_true, if_neg Bool.false_ne_true]
      | false =>
        rw [if_neg Bool.false_ne_true, ih]
        cases b with
        | true =>
          rw [if_pos rfl, if_pos rfl, hskip]
        | false =>
          rw [if_neg Bool.false_ne_true, if_neg Bool.false_ne_true]

theorem lastVal_filter_mem (db : List (Nat × Option Int)) (ids : List Nat) (k : Nat) :
    lastVal k (db.filter (fun r => decide (r.1 ∈ ids)))
      = if k ∈ ids then lastVal k db else none := by
  unfold lastVal
  rw [← List.filter_reverse]
  rw [find?_filter_key db.reverse _ k (decide (k ∈ ids))
    (fun r hr => by rw [hr])]
  by_cases h : k ∈ ids
  · simp [h]
  · simp [h]

theorem foldBatches_apply (db : List (Nat × Option Int)) (batches : List (List Nat))
    (m : Nat → Option Int) (k : Nat) :
    (batches.foldl (fun acc b => mergeRows acc (db.filter (fun r => decide (r.1 ∈ b)))) m) k
      = if ∃ b ∈ batches, k ∈ b then (lastVal k db).or (m k) else m k := by
  induction batches generalizing m with
  | nil => simp
  | cons b bs ih =>
    rw [List.foldl_cons, ih, mergeRows_apply, lastVal_filter_mem]
    by_cases hb : k ∈ b
    · have hcond : ∃ c ∈ b :: bs, k ∈ c := ⟨b, List.mem_cons_self b bs, hb⟩
      rw [if_pos hb, if_pos hcond]
      by_cases hbs : ∃ c ∈ bs, k ∈ c
      · rw [if_pos hbs]
        cases lastVal k db <;> rfl
      · rw [if_neg hbs]
    · rw [if_neg hb]
      by_cases hbs : ∃ c ∈ bs, k ∈ c
      · have hcond : ∃ c ∈ b :: bs, k ∈ c := by
          obtain ⟨c, hc, hkc⟩ := hbs
          exact ⟨c, List.mem_cons_of_mem b hc, hkc⟩
        rw [if_pos hbs, if_pos hcond]
        cases lastVal k db <;> rfl
      · have hcond : ¬ ∃ c ∈ b :: bs, k ∈ c := by
          rintro ⟨c, hc, hkc⟩
          rcases List.mem_cons.mp hc with h | h
          · exact hb (h ▸ hkc)
          · exact hbs ⟨c, h, hkc⟩
        rw [if_neg hbs, if_neg hcond]
        rfl

theorem fetchSingleQuery_apply (db : List (Nat × Option Int)) (ids : List Nat) (k : Nat) :
    fetchSingleQuery db ids k = if k ∈ ids then lastVal k db else none := by
  unfold fetchSingleQuery
  rw [mergeRows_apply, lastVal_filter_mem]
  by_cases h : k ∈ ids <;> simp [h, dempty]

theorem fetchBatchedCore_eq_single (db : List (Nat × Option Int)) (b : Nat) (ids : List Nat) :
    fetchBatchedCore db (b + 1) ids = fetchSingleQuery db ids := by
  funext k
  unfold fetchBatchedCore
  rw [foldBatches_apply, fetchSingleQuery_apply]
  by_cases h : k ∈ ids
  · rw [if_pos ((mem_chunks_iff b ids k).mpr h), if_pos h]
    simp [dempty]
  · rw [if_neg (fun hc => h ((mem_chunks_iff b ids k).mp hc)), if_neg h]
    rfl

/-- The key/value view of the `inventory` table used by the quantity fetcher:
each row contributes `part_id ↦ current_quantity`. -/
def invPairs (invdb : List InvRow) : List (Nat × Option Int) :=
  invdb.map (fun r => (r.part_id, r.current_quantity))

/-- The key/value view of the `part_prices` table used by the price fetcher:
only rows with `is_current = true` contribute `part_id ↦ unit_price`. -/
def pricePairs (pdb : List PriceRow) : List (Nat × Option Int) :=
  (pdb.filter (fun r => r.is_current)).map (fun r => (r.part_id, r.unit_price))

/-- `get_inventory_data(part_ids)`: return `{}` on an empty id list, otherwise
slice the ids into batches of 30, run one
`from_("inventory").select(...).in_("part_id", batch_ids)` query per batch and
merge `part_id ↦ current_quantity or 0` into one dictionary. -/
def get_inventory_data (invdb : List InvRow) (part_ids : List Nat) : Nat → Option Int :=
  if part_ids.isEmpty then dempty
  else
    (chunks 30 part_ids).foldl
      (fun m b => mergeRows m
        ((invdb.filter (fun r => decide (r.part_id ∈ b))).map
          (fun r => (r.part_id, r.current_quantity)))) dempty

/-- `get_price_data(part_ids)`: same batching, with the per-batch query filtered
by `in_("part_id", batch_ids).eq("is_current", True)`, merging
`part_id ↦ unit_price or 0`. -/
def get_price_data (pdb : List PriceRow) (part_ids : List Nat) : Nat → Option Int :=
  if part_ids.isEmpty then dempty
  else
    (chunks 30 part_ids).foldl
      (fun m b => mergeRows m
        ((pdb.filter (fun r => decide (r.part_id ∈ b) && r.is_current)).map
          (fun r => (r.part_id, r.unit_price)))) dempty

/-- Modelled from the spec: the quantity map a single unbounded query over the
whole identifier list would produce. -/
def inventorySingleQuery (invdb : List InvRow) (ids : List Nat) : Nat → Option Int :=
  fetchSingleQuery (invPairs invdb) ids

/-- Modelled from the spec: the price map a single unbounded `is_current = true`
query over the whole identifier list would produce. -/
def priceSingleQuery (pdb : List PriceRow) (ids : List Nat) : Nat → Option Int :=
  fetchSingleQuery (pricePairs pdb) ids

theorem invRows_comm (invdb : List InvRow) (b : List Nat) :
    (invdb.filter (fun r => decide (r.part_id ∈ b))).map
        (fun r => (r.part_id, r.current_quantity))
      = (invPairs invdb).filter (fun r => decide (r.1 ∈ b)) := by
  induction invdb with
  | nil => rfl
  | cons r rest ih =>
    unfold invPairs at ih ⊢
    by_cases h : r.part_id ∈ b <;>
      simp [h, List.filter_cons, ih]

theorem priceRows_comm (pdb : List PriceRow) (b : List Nat) :
    (pdb.filter (fun r => decide (r.part_id ∈ b) && r.is_current)).map
        (fun r => (r.part_id, r.unit_price))
      = (pricePairs pdb).filter (fun r => decide (r.1 ∈ b)) := by
  induction pdb with
  | nil => rfl
  | cons r rest ih =>
    unfold pricePairs at ih ⊢
    by_cases hc : r.is_current <;> by_cases h : r.part_id ∈ b <;>
      simp [hc, h, List.filter_cons, ih]

theorem fetchBatchedCore_empty (db : List (Nat × Option Int)) (bs : Nat) :
    fetchBatchedCore db bs [] = dempty := by
  unfold fetchBatchedCore
  rw [chunks_nil]
  rfl

theorem get_inventory_data_eq_core (invdb : List InvRow) (ids : List Nat) :
    get_inventory_data invdb ids = fetchBatchedCore (invPairs invdb) 30 ids := by
  unfold get_inventory_data
  by_cases h : ids.isEmpty
  · rw [if_pos h]
    have : ids = [] := List.isEmpty_iff.mp h
    rw [this, fetchBatchedCore_empty]
  · rw [if_neg h]
    unfold fetchBatchedCore
    refine congrFun (congrFun (congrArg _ (funext fun m => funext fun b => ?_)) _) _
    rw [invRows_comm]

theorem get_price_data_eq_core (pdb : List PriceRow) (ids : List Nat) :
    get_price_data pdb ids = fetchBatchedCore (pricePairs pdb) 30 ids := by
  unfold get_price_data
  by_cases h : ids.isEmpty
  · rw [if_pos h]
    have : ids = [] := List.isEmpty_iff.mp h
    rw [this, fetchBatchedCore_empty]
  · rw [if_neg h]
    unfold fetchBatchedCore
    refine congrFun (congrFun (congrArg _ (funext fun m => funext fun b => ?_)) _) _
    rw [priceRows_comm]

/-- C2: for every identifier list, the Batch Fetcher's merged map — batches of
30, one membership-filtered query each, merged into one dictionary — equals the
map of a single unbounded query over the whole list, for both the quantity
fetcher `get_inventory_data` and the price fetcher `get_price_data`; and the
core merge is independent of the batch size. -/
theorem batch_fetch_eq_single_query (invdb : List InvRow) (pdb : List PriceRow)
    (ids : List Nat) :
    get_inventory_data invdb ids = inventorySingleQuery invdb ids ∧
    get_price_data pdb ids = priceSingleQuery pdb ids ∧
    ∀ db : List (Nat × Option Int), ∀ b : Nat,
      fetchBatchedCore db (b + 1) ids = fetchSingleQuery db ids := by
  refine ⟨?_, ?_, fun db b => fetchBatchedCore_eq_single db b ids⟩
  · rw [get_inventory_data_eq_core]
    show fetchBatchedCore _ (29 + 1) _ = _
    rw [fetchBatchedCore_eq_single]
    rfl
  · rw [get_price_data_eq_core]
    show fetchBatchedCore _ (29 + 1) _ = _
    rw [fetchBatchedCore_eq_single]
    rfl

/-- One record of the low-stock list built by `get_low_stock_items`. -/
structure LowStockItem where
  part_id : Nat
  part_code : String
  part_name : String
  korean_name : Option String
  category : Option String
  unit : Option String
  current_quantity : Int
  min_stock : Int
  shortage : Int
deriving DecidableEq

/-- `min_stock = part['min_stock'] if part['min_stock'] is not None else 0`. -/
def msD (p : PartRow) : Int :=
  match p.min_stock with
  | none => 0
  | some v => v

/-- Python `d.get(k, 0)` on a merged dictionary: a missing key reads as zero. -/
def qget (m : Nat → Option Int) (k : Nat) : Int :=
  (m k).getD 0

/-- The record appended for an under-threshold part: the part's display fields
plus `current_quantity`, `min_stock` and `shortage = min_stock - current_quantity`. -/
def mkLowItem (p : PartRow) (q ms : Int) : LowStockItem :=
  ⟨p.part_id, p.part_code, p.part_name, p.korean_name, p.category, p.unit, q, ms, ms - q⟩

/-- The filtering loop of `get_low_stock_items`: one record per part whose
current quantity is strictly below its (null-defaulted) minimum stock, in the
order of the parts query. -/
def lowStockRecords (parts : List PartRow) (m : Nat → Option Int) : List LowStockItem :=
  parts.filterMap (fun p =>
    if qget m p.part_id < msD p then some (mkLowItem p (qget m p.part_id) (msD p))
    else none)

/-- The comparator of `sorted(low_stock_items, key=lambda x: x['shortage'], reverse=True)`:
descending by shortage, stable on ties. -/
def lsLe (a b : LowStockItem) : Bool :=
  decide (b.shortage ≤ a.shortage)

/-- The inventory dictionary `get_low_stock_items` builds for the part ids of
its parts query: the same 30-per-batch loop as `get_inventory_data`. -/
def lowStockMap (parts : List PartRow) (invdb : List InvRow) : Nat → Option Int :=
  fetchBatchedCore (invPairs invdb) 30 (parts.map (fun p => p.part_id))

/-- `get_low_stock_items()` on a backend snapshot: empty parts query returns
`[]`; otherwise batch-fetch quantities, keep the parts strictly below their
minimum stock and sort descending (stably) by shortage. -/
def get_low_stock_items (parts : List PartRow) (invdb : List InvRow) : List LowStockItem :=
  if parts.isEmpty then []
  else (lowStockRecords parts (lowStockMap parts invdb)).mergeSort lsLe

/-- The spec scenario: part 1 with threshold 10 and quantity 5, part 2 with
threshold 3 and quantity 3. -/
def scenarioPart1 : PartRow := ⟨1, "MT001", "PART ONE", none, none, none, none, some 10, none⟩

def scenarioPart2 : PartRow := ⟨2, "MT002", "PART TWO", none, none, none, none, some 3, none⟩

def scenarioParts : List PartRow := [scenarioPart1, scenarioPart2]

def scenarioInv : List InvRow := [⟨1, some 5⟩, ⟨2, some 3⟩]

theorem lowStockRecords_mem (parts : List PartRow) (m : Nat → Option Int)
    (r : LowStockItem) (hr : r ∈ lowStockRecords parts m) :
    r.current_quantity = qget m r.part_id ∧ r.current_quantity < r.min_stock ∧
      r.shortage = r.min_stock - r.current_quantity := by
  unfold lowStockRecords at hr
  rw [List.mem_filterMap] at hr
  obtain ⟨p, hp, hf⟩ := hr
  by_cases hc : qget m p.part_id < msD p
  · rw [if_pos hc, Option.some.injEq] at hf
    subst hf
    exact ⟨rfl, hc, rfl⟩
  · rw [if_neg hc] at hf
    exact absurd hf (by simp)

/-- C1: the low-stock evaluator emits a record exactly for the parts whose
current quantity (missing key read as zero) is strictly below their minimum
stock (null read as zero); every emitted record carries
`shortage = min_stock - current_quantity`, no at-or-above-threshold part
appears, and on the spec scenario (part 1: threshold 10, qty 5; part 2:
threshold 3, qty 3) the result is exactly the record for part 1 with
shortage 5. -/
theorem low_stock_emits_exactly_below_threshold (parts : List PartRow) (invdb : List InvRow) :
    (∀ r ∈ get_low_stock_items parts invdb,
        r.current_quantity = qget (lowStockMap parts invdb) r.part_id ∧
        r.current_quantity < r.min_stock ∧
        r.shortage = r.min_stock - r.current_quantity) ∧
    (∀ p ∈ parts,
        qget (lowStockMap parts invdb) p.part_id < msD p →
        mkLowItem p (qget (lowStockMap parts invdb) p.part_id) (msD p)
          ∈ get_low_stock_items parts invdb) ∧
    get_low_stock_items scenarioParts scenarioInv = [mkLowItem scenarioPart1 5 10] := by
  refine ⟨?_, ?_, ?_⟩
  · intro r hr
    unfold get_low_stock_items at hr
    by_cases hne : parts.isEmpty
    · rw [if_pos hne] at hr
      exact absurd hr (by simp)
    · rw [if_neg hne] at hr
      have hmem : r ∈ lowStockRecords parts (lowStockMap parts invdb) :=
        (List.mergeSort_perm _ lsLe).mem_iff.mp hr
      exact lowStockRecords_mem parts _ r hmem
  · intro p hp hlt
    have hne : parts.isEmpty = false := by
      cases parts with
      | nil => cases hp
      | cons a l => rfl
    unfold get_low_stock_items
    rw [if_neg (by rw [hne]; exact Bool.false_ne_true)]
    refine (List.mergeSort_perm _ lsLe).mem_iff.mpr ?_
    unfold lowStockRecords
    rw [List.mem_filterMap]
    exact ⟨p, hp, by rw [if_pos hlt]⟩
  · have hrec : lowStockRecords scenarioParts (lowStockMap scenarioParts scenarioInv)
        = [mkLowItem scenarioPart1 5 10] := by decide
    unfold get_low_stock_items
    rw [if_neg (by decide), hrec, List.mergeSort_singleton]

/-- Witness for C1 at the spec scenario: part 1 is emitted, and the emitted
record is strictly below threshold. -/
theorem low_stock_emits_exactly_below_threshold_witness :
    mkLowItem scenarioPart1
        (qget (lowStockMap scenarioParts scenarioInv) scenarioPart1.part_id)
        (msD scenarioPart1)
      ∈ get_low_stock_items scenarioParts scenarioInv ∧
    (mkLowItem scenarioPart1 5 10).current_quantity < (mkLowItem scenarioPart1 5 10).min_stock := by
  have h := low_stock_emits_exactly_below_threshold scenarioParts scenarioInv
  refine ⟨h.2.1 scenarioPart1 (by decide) (by decide), ?_⟩
  have hm : mkLowItem scenarioPart1 5 10 ∈ get_low_stock_items scenarioParts scenarioInv := by
    rw [h.2.2]
    exact List.mem_singleton.mpr rfl
  exact (h.1 _ hm).2.1

/-- Two parts with the same threshold and no inventory rows: equal shortages. -/
def tiePart1 : PartRow := ⟨1, "T1", "TIE ONE", none, none, none, none, some 5, none⟩

def tiePart2 : PartRow := ⟨2, "T2", "TIE TWO", none, none, none, none, some 5, none⟩

def tieParts : List PartRow := [tiePart1, tiePart2]

def tieInv : List InvRow := []

/-- C3: the low-stock list is sorted non-increasing by shortage, and records
with equal shortage keep their order from the parts query (the pre-sort record
list). -/
theorem low_stock_sorted_desc_stable (parts : List PartRow) (invdb : List InvRow) :
    List.Pairwise (fun a b : LowStockItem => b.shortage ≤ a.shortage)
        (get_low_stock_items parts invdb) ∧
    ∀ u v : LowStockItem, u.shortage = v.shortage →
      [u, v].Sublist (lowStockRecords parts (lowStockMap parts invdb)) →
      [u, v].Sublist (get_low_stock_items parts invdb) := by
  have htrans : ∀ a b c : LowStockItem,
      lsLe a b = true → lsLe b c = true → lsLe a c = true := by
    intro a b c hab hbc
    simp only [lsLe, decide_eq_true_eq] at *
    exact le_trans hbc hab
  have htot : ∀ a b : LowStockItem, (lsLe a b || lsLe b a) = true := by
    intro a b
    simp only [lsLe, Bool.or_eq_true, decide_eq_true_eq]
    exact le_total b.shortage a.shortage
  unfold get_low_stock_items
  by_cases hne : parts.isEmpty
  · rw [if_pos hne]
    refine ⟨List.Pairwise.nil, ?_⟩
    intro u v hsh hsub
    rw [List.isEmpty_iff.mp hne] at hsub
    simp [lowStockRecords] at hsub
  · rw [if_neg hne]
    constructor
    · exact (List.sorted_mergeSort htrans htot _).imp
        (fun h => by simpa [lsLe, decide_eq_true_eq] using h)
    · intro u v hsh hsub
      refine List.sublist_mergeSort htrans htot ?_ hsub
      refine List.pairwise_pair.mpr ?_
      simp [lsLe, hsh]

/-- Witness for C3 on two tied records: the result is sorted and keeps the two
equal-shortage records in parts-query order. -/
theorem low_stock_sorted_desc_stable_witness :
    List.Pairwise (fun a b : LowStockItem => b.shortage ≤ a.shortage)
        (get_low_stock_items tieParts tieInv) ∧
    [mkLowItem tiePart1 0 5, mkLowItem tiePart2 0 5].Sublist
        (get_low_stock_items tieParts tieInv) := by
  have h := low_stock_sorted_desc_stable tieParts tieInv
  exact ⟨h.1, h.2 _ _ (by decide) (by decide)⟩

/-- `cat = item.get('category', '기타'); if not cat: cat = '기타'`: a null or
empty category is replaced by the literal `"기타"` (other) bucket. -/
def normCat : Option String → String
  | none => "기타"
  | some s => if s = "" then "기타" else s

/-- One bucket of the category aggregation: the `categories` count and the
`part_ids_by_category` id list for one category key. -/
structure CatBucket where
  name : String
  count : Nat
  ids : List Nat
deriving DecidableEq

/-- Insert one part into the bucket list: a Python dict update keeps the key's
position and appends new keys at the end; the part id is appended to the
bucket's id list. -/
def addPart : List CatBucket → String → Nat → List CatBucket
  | [], k, i => [⟨k, 1, [i]⟩]
  | b :: rest, k, i =>
    if b.name = k then ⟨b.name, b.count + 1, b.ids ++ [i]⟩ :: rest
    else b :: addPart rest k i

/-- The first loop of `get_inventory_analysis_data`: group the parts query by
normalised category, counting and collecting part ids. -/
def buildCats (parts : List PartRow) : List CatBucket :=
  parts.foldl (fun st p => addPart st (normCat p.category) p.part_id) []

/-- `inventory_data.get(part_id, 0) * price_data.get(part_id, 0)`. -/
def partValue (inv price : Nat → Option Int) (i : Nat) : Int :=
  qget inv i * qget price i

/-- `category_values[cat]`: the summed quantity × price over a bucket's ids. -/
def bucketValue (inv price : Nat → Option Int) (ids : List Nat) : Int :=
  (ids.map (partValue inv price)).sum

/-- The sum of the per-category part counts. -/
def sumCounts (st : List CatBucket) : Nat :=
  (st.map (fun b => b.count)).sum

/-- `total_value = sum(category_values.values())`: the sum of the per-category
values. -/
def sumValues (inv price : Nat → Option Int) (st : List CatBucket) : Int :=
  (st.map (fun b => bucketValue inv price b.ids)).sum

/-- Dictionary lookup on the bucket list (count of a category, 0 if absent). -/
def catLookup : List CatBucket → String → Nat
  | [], _ => 0
  | b :: rest, k => if b.name = k then b.count else catLookup rest k

theorem sumCounts_addPart (st : List CatBucket) (k : String) (i : Nat) :
    sumCounts (addPart st k i) = sumCounts st + 1 := by
  induction st with
  | nil => rfl
  | cons b rest ih =>
    unfold addPart
    by_cases h : b.name = k
    · rw [if_pos h]
      simp only [sumCounts, List.map_cons, List.sum_cons]
      omega
    · rw [if_neg h]
      simp only [sumCounts, List.map_cons, List.sum_cons] at ih ⊢
      omega

theorem sumValues_addPart (inv price : Nat → Option Int) (st : List CatBucket)
    (k : String) (i : Nat) :
    sumValues inv price (addPart st k i)
      = sumValues inv price st + partValue inv price i := by
  induction st with
  | nil =>
    simp [addPart, sumValues, bucketValue]
  | cons b rest ih =>
    unfold addPart
    by_cases h : b.name = k
    · rw [if_pos h]
      simp only [sumValues, List.map_cons, List.sum_cons, bucketValue,
        List.map_append, List.sum_append, List.map_nil, List.sum_nil, add_zero]
      ring
    · rw [if_neg h]
      simp only [sumValues, List.map_cons, List.sum_cons] at ih ⊢
      rw [ih]
      ring

theorem catLookup_addPart (st : List CatBucket) (k k2 : String) (i : Nat) :
    catLookup (addPart st k i) k2 = catLookup st k2 + (if k = k2 then 1 else 0) := by
  induction st with
  | nil =>
    unfold addPart catLookup
    by_cases h : k = k2
    · rw [if_pos h, if_pos h]
    · rw [if_neg h, if_neg h]
      rfl
  | cons b rest ih =>
    unfold addPart
    by_cases hb : b.name = k
    · rw [if_pos hb]
      by_cases h2 : b.name = k2
      · have hk : k = k2 := hb.symm.trans h2
        unfold catLookup
        rw [if_pos h2, if_pos h2, if_pos hk]
      · have hk : ¬ k = k2 := fun he => h2 (hb.trans he)
        unfold catLookup
        rw [if_neg h2, if_neg h2, if_neg hk]
        omega
    · rw [if_neg hb]
      unfold catLookup
      by_cases h2 : b.name = k2
      · have hk : ¬ k = k2 := fun he => hb (he.trans h2.symm ▸ rfl)
        rw [if_pos h2, if_pos h2, if_neg hk]
        omega
      · rw [if_neg h2, if_neg h2, ih]

theorem buildCats_go_sumCounts (parts : List PartRow) (st : List CatBucket) :
    sumCounts (parts.foldl (fun st p => addPart st (normCat p.category) p.part_id) st)
      = sumCounts st + parts.length := by
  induction parts generalizing st with
  | nil => simp
  | cons p rest ih =>
    rw [List.foldl_cons, ih, sumCounts_addPart, List.length_cons]
    omega

theorem buildCats_go_sumValues (inv price : Nat → Option Int) (parts : List PartRow)
    (st : List CatBucket) :
    sumValues inv price
        (parts.foldl (fun st p => addPart st (normCat p.category) p.part_id) st)
      = sumValues inv price st
        + (parts.map (fun p => partValue inv price p.part_id)).sum := by
  induction parts generalizing st with
  | nil => simp
  | cons p rest ih =>
    rw [List.foldl_cons, ih, sumValues_addPart, List.map_cons, List.sum_cons]
    ring

theorem buildCats_go_catLookup (parts : List PartRow) (st : List CatBucket) (k : String) :
    catLookup (parts.foldl (fun st p => addPart st (normCat p.category) p.part_id) st) k
      = catLookup st k + parts.countP (fun p => normCat p.category == k) := by
  induction parts generalizing st with
  | nil => simp
  | cons p rest ih =>
    rw [List.foldl_cons, ih, catLookup_addPart, List.countP_cons]
    by_cases h : normCat p.category = k
    · rw [if_pos h, if_pos (by simp [h])]
      omega
    · rw [if_neg h, if_neg (by simp [h])]
      omega

/-- C4: in the category aggregation of `get_inventory_analysis_data`, the
per-category counts sum to the total part count and the per-category values
sum to the total inventory value (the sum over all parts of quantity × current
price, with the batch-fetched quantity and price dictionaries). -/
theorem category_rollup_partitions_totals (parts : List PartRow)
    (invdb : List InvRow) (pdb : List PriceRow) :
    sumCounts (buildCats parts) = (parts.map (fun p => p.part_id)).length ∧
    sumValues (get_inventory_data invdb (parts.map (fun p => p.part_id)))
        (get_price_data pdb (parts.map (fun p => p.part_id)))
        (buildCats parts)
      = (parts.map (fun p =>
          partValue (get_inventory_data invdb (parts.map (fun p => p.part_id)))
            (get_price_data pdb (parts.map (fun p => p.part_id))) p.part_id)).sum := by
  constructor
  · rw [buildCats, buildCats_go_sumCounts, List.length_map]
    simp [sumCounts]
  · rw [buildCats, buildCats_go_sumValues]
    simp [sumValues]

/-- C5: a part with a null or empty category is assigned to the literal
`"기타"` (other) bucket, and no part is dropped: the other-bucket count is
exactly the number of parts normalising to `"기타"`, it dominates the number
of null/empty-category parts, and the bucket counts still sum to the total. -/
theorem null_empty_category_goes_to_other (parts : List PartRow) :
    normCat none = "기타" ∧ normCat (some "") = "기타" ∧
    catLookup (buildCats parts) "기타"
      = parts.countP (fun p => normCat p.category == "기타") ∧
    (parts.filter (fun p => p.category == none || p.category == some "")).length
      ≤ catLookup (buildCats parts) "기타" ∧
    sumCounts (buildCats parts) = parts.length := by
  have hlook : catLookup (buildCats parts) "기타"
      = parts.countP (fun p => normCat p.category == "기타") := by
    rw [buildCats, buildCats_go_catLookup]
    simp [catLookup]
  refine ⟨rfl, rfl, hlook, ?_, ?_⟩
  · rw [hlook, ← List.countP_eq_length_filter]
    refine List.countP_mono_left ?_
    intro p _ hp
    have : p.category = none ∨ p.category = some "" := by
      rcases Bool.or_eq_true_iff.mp hp with h | h
      · exact Or.inl (beq_iff_eq.mp h)
      · exact Or.inr (beq_iff_eq.mp h)
    rcases this with h | h <;> rw [h] <;> rfl
  · rw [buildCats, buildCats_go_sumCounts]
    simp [sumCounts]

/-- `status = item.get('status', '')` with a null column reading as falsy:
the truthiness test `if status:` rejects exactly the empty normalised value. -/
def statusVal (p : PartRow) : String :=
  match p.status with
  | none => ""
  | some s => s

/-- Python dict bump `status_counts[status] += 1` (or `= 1` on a new key). -/
def statusBump : List (String × Nat) → String → List (String × Nat)
  | [], k => [(k, 1)]
  | e :: rest, k => if e.1 = k then (e.1, e.2 + 1) :: rest else e :: statusBump rest k

/-- The first status loop of `get_inventory_analysis_data`: only truthy
(non-null, non-empty) statuses are counted. -/
def statusCountsRaw (parts : List PartRow) : List (String × Nat) :=
  parts.foldl (fun st p => if statusVal p = "" then st else statusBump st (statusVal p)) []

/-- First-match dictionary lookup on a status table. -/
def sLookup : List (String × Nat) → String → Option Nat
  | [], _ => none
  | e :: rest, k => if e.1 = k then some e.2 else sLookup rest k

/-- One step of the zero-fill loop:
`if status not in status_counts: status_counts[status] = 0`. -/
def fillStep (st : List (String × Nat)) (s : String) : List (String × Nat) :=
  if (sLookup st s).isSome then st else st ++ [(s, 0)]

/-- The zero-fill loop over the four default statuses. -/
def statusFill (st : List (String × Nat)) : List (String × Nat) :=
  (["NEW", "OLD", "REPAIR", "NG"]).foldl fillStep st

/-- The status table rendered by `get_inventory_analysis_data`. -/
def statusTable (parts : List PartRow) : List (String × Nat) :=
  statusFill (statusCountsRaw parts)

/-- The sum of all status counts in a table. -/
def statusSum (st : List (String × Nat)) : Nat :=
  (st.map (fun e => e.2)).sum

theorem sLookup_append (l1 l2 : List (String × Nat)) (k : String) :
    sLookup (l1 ++ l2) k = (sLookup l1 k).or (sLookup l2 k) := by
  induction l1 with
  | nil => rfl
  | cons e rest ih =>
    show (if e.1 = k then some e.2 else sLookup (rest ++ l2) k)
        = ((if e.1 = k then some e.2 else sLookup rest k).or (sLookup l2 k))
    by_cases h : e.1 = k
    · rw [if_pos h, if_pos h]
      rfl
    · rw [if_neg h, if_neg h, ih]

theorem sLookup_bump (st : List (String × Nat)) (k k2 : String) :
    sLookup (statusBump st k) k2
      = if k = k2 then some ((sLookup st k2).getD 0 + 1) else sLookup st k2 := by
  induction st with
  | nil =>
    unfold statusBump sLookup
    by_cases h : k = k2
    · rw [if_pos h, if_pos h]
      rfl
    · rw [if_neg h]
      rw [if_neg h]
      rfl
  | cons e rest ih =>
    unfold statusBump
    by_cases he : e.1 = k
    · rw [if_pos he]
      by_cases hk : k = k2
      · have he2 : e.1 = k2 := he.trans hk
        show (if e.1 = k2 then some (e.2 + 1) else sLookup rest k2) = _
        rw [if_pos he2, if_pos hk]
        show _ = some ((if e.1 = k2 then some e.2 else sLookup rest k2).getD 0 + 1)
        rw [if_pos he2]
        rfl
      · have he2 : ¬ e.1 = k2 := fun hcon => hk (he.symm.trans hcon)
        show (if e.1 = k2 then some (e.2 + 1) else sLookup rest k2) = _
        rw [if_neg he2, if_neg hk]
        show _ = (if e.1 = k2 then some e.2 else sLookup rest k2)
        rw [if_neg he2]
    · rw [if_neg he]
      by_cases he2 : e.1 = k2
      · have hk : ¬ k = k2 := fun hcon => he (hcon.symm ▸ he2 : e.1 = k)
        show (if e.1 = k2 then some e.2 else sLookup (statusBump rest k) k2) = _
        rw [if_pos he2, if_neg hk]
        show _ = (if e.1 = k2 then some e.2 else sLookup rest k2)
        rw [if_pos he2]
      · show (if e.1 = k2 then some e.2 else sLookup (statusBump rest k) k2) = _
        rw [if_neg he2, ih]
        by_cases hk : k = k2
        · rw [if_pos hk, if_pos hk]
          show some ((sLookup rest k2).getD 0 + 1)
              = some ((if e.1 = k2 then some e.2 else sLookup rest k2).getD 0 + 1)
          rw [if_neg he2]
        · rw [if_neg hk, if_neg hk]
          show sLookup rest k2 = (if e.1 = k2 then some e.2 else sLookup rest k2)
          rw [if_neg he2]

theorem statusSum_bump (st : List (String × Nat)) (k : String) :
    statusSum (statusBump st k) = statusSum st + 1 := by
  induction st with
  | nil => rfl
  | cons e rest ih =>
    unfold statusBump
    by_cases h : e.1 = k
    · rw [if_pos h]
      simp only [statusSum, List.map_cons, List.sum_cons]
      omega
    · rw [if_neg h]
      simp only [statusSum, List.map_cons, List.sum_cons] at ih ⊢
      omega

theorem statusCountsRaw_go_sum (parts : List PartRow) (st : List (String × Nat)) :
    statusSum (parts.foldl
        (fun st p => if statusVal p = "" then st else statusBump st (statusVal p)) st)
      = statusSum st + (parts.filter (fun p => !(statusVal p == ""))).length := by
  induction parts generalizing st with
  | nil => simp
  | cons p rest ih =>
    rw [List.foldl_cons, ih]
    by_cases h : statusVal p = ""
    · rw [if_pos h, List.filter_cons, if_neg (by simp [h])]
    · rw [if_neg h, statusSum_bump, List.filter_cons, if_pos (by simp [h])]
      simp only [List.length_cons]
      omega

theorem statusCountsRaw_go_lookup (parts : List PartRow) (st : List (String × Nat))
    (k : String) (hk : ¬ k = "") :
    (sLookup (parts.foldl
        (fun st p => if statusVal p = "" then st else statusBump st (statusVal p)) st) k).getD 0
      = (sLookup st k).getD 0 + parts.countP (fun p => statusVal p == k) := by
  induction parts generalizing st with
  | nil => simp
  | cons p rest ih =>
    rw [List.foldl_cons, ih, List.countP_cons]
    by_cases h : statusVal p = ""
    · rw [if_pos h]
      have hfalse : (statusVal p == k) = false := by
        rw [h]
        exact beq_eq_false_iff_ne.mpr (fun he => hk he.symm)
      rw [hfalse, if_neg Bool.false_ne_true]
      omega
    · rw [if_neg h, sLookup_bump]
      by_cases hpk : statusVal p = k
      · rw [if_pos hpk, beq_iff_eq.mpr hpk |> if_pos]
        simp only [Option.getD_some]
        omega
      · rw [if_neg hpk, if_neg (by simp [hpk])]
        omega

theorem fillStep_lookup (st : List (String × Nat)) (s k : String) :
    sLookup (fillStep st s) k
      = (sLookup st k).or (if k = s then some 0 else none) := by
  unfold fillStep
  by_cases h : (sLookup st s).isSome
  · rw [if_pos h]
    by_cases hk : k = s
    · subst hk
      obtain ⟨c, hc⟩ := Option.isSome_iff_exists.mp h
      rw [hc, if_pos rfl]
      rfl
    · rw [if_neg hk, Option.or_none]
  · rw [if_neg h, sLookup_append]
    congr 1
    show (if s = k then some 0 else sLookup [] k) = (if k = s then some 0 else none)
    by_cases hk : k = s
    · rw [if_pos hk.symm, if_pos hk]
    · rw [if_neg (fun he => hk he.symm), if_neg hk]
      rfl

theorem fillStep_sum (st : List (String × Nat)) (s : String) :
    statusSum (fillStep st s) = statusSum st := by
  unfold fillStep
  by_cases h : (sLookup st s).isSome
  · rw [if_pos h]
  · rw [if_neg h]
    simp [statusSum, List.map_append, List.sum_append]

theorem statusFill_sum (st : List (String × Nat)) :
    statusSum (statusFill st) = statusSum st := by
  show statusSum (fillStep (fillStep (fillStep (fillStep st "NEW") "OLD") "REPAIR") "NG")
      = statusSum st
  rw [fillStep_sum, fillStep_sum, fillStep_sum, fillStep_sum]

theorem statusTable_lookup_four (parts : List PartRow) (k : String)
    (hk : k = "NEW" ∨ k = "OLD" ∨ k = "REPAIR" ∨ k = "NG") :
    sLookup (statusTable parts) k
      = some ((sLookup (statusCountsRaw parts) k).getD 0) := by
  unfold statusTable
  show sLookup (fillStep (fillStep (fillStep
      (fillStep (statusCountsRaw parts) "NEW") "OLD") "REPAIR") "NG") k = _
  rw [fillStep_lookup, fillStep_lookup, fillStep_lookup, fillStep_lookup]
  rcases hk with h | h | h | h <;> subst h <;>
    cases hc : sLookup (statusCountsRaw parts) _ <;> simp [hc, Option.or]

/-- The example part with a null status used to exhibit a strict gap between
the summed status counts and the total part count. -/
def noStatusPart : PartRow := ⟨7, "NS", "NO STATUS", none, none, none, none, none, none⟩

/-- C10: in the status aggregation, parts with a null or empty status are
excluded from every status count; the four statuses NEW/OLD/REPAIR/NG are
always present in the table (zero when absent); the counts sum to the number
of parts with a non-empty status; and that sum can be strictly below the part
count (a one-part snapshot with a null status sums to 0). -/
theorem status_counts_exclude_empty_and_zero_fill (parts : List PartRow) :
    sLookup (statusTable parts) "NEW"
      = some (parts.countP (fun p => statusVal p == "NEW")) ∧
    sLookup (statusTable parts) "OLD"
      = some (parts.countP (fun p => statusVal p == "OLD")) ∧
    sLookup (statusTable parts) "REPAIR"
      = some (parts.countP (fun p => statusVal p == "REPAIR")) ∧
    sLookup (statusTable parts) "NG"
      = some (parts.countP (fun p => statusVal p == "NG")) ∧
    statusSum (statusTable parts)
      = (parts.filter (fun p => !(statusVal p == ""))).length ∧
    statusSum (statusTable [noStatusPart]) < ([noStatusPart] : List PartRow).length := by
  have hlit : ∀ k : String, k = "NEW" ∨ k = "OLD" ∨ k = "REPAIR" ∨ k = "NG" →
      sLookup (statusTable parts) k
        = some (parts.countP (fun p => statusVal p == k)) := by
    intro k hk
    have hne : ¬ k = "" := by
      rcases hk with h | h | h | h <;> subst h <;> decide
    rw [statusTable_lookup_four parts k hk]
    have := statusCountsRaw_go_lookup parts [] k hne
    unfold statusCountsRaw
    rw [this]
    simp [sLookup]
  refine ⟨hlit _ (Or.inl rfl), hlit _ (Or.inr (Or.inl rfl)),
    hlit _ (Or.inr (Or.inr (Or.inl rfl))), hlit _ (Or.inr (Or.inr (Or.inr rfl))), ?_, ?_⟩
  · unfold statusTable
    rw [statusFill_sum]
    unfold statusCountsRaw
    rw [statusCountsRaw_go_sum]
    simp [statusSum]
  · show statusSum (statusTable [noStatusPart]) < 1
    have hs : statusSum (statusTable [noStatusPart])
        = (([noStatusPart] : List PartRow).filter (fun p => !(statusVal p == ""))).length := by
      unfold statusTable
      rw [statusFill_sum]
      unfold statusCountsRaw
      rw [statusCountsRaw_go_sum]
      simp [statusSum]
    rw [hs]
    decide

/-- Python dict assignment
`min_stock_data[part_id] = 0 if min_stock is None else min_stock`:
update in place or append. -/
def msUpsert : List (Nat × Int) → Nat → Int → List (Nat × Int)
  | [], k, v => [(k, v)]
  | e :: rest, k, v => if e.1 = k then (e.1, v) :: rest else e :: msUpsert rest k v

/-- The `min_stock_data` dictionary built by `get_inventory_analysis_data`. -/
def minStockData (parts : List PartRow) : List (Nat × Int) :=
  parts.foldl (fun d p => msUpsert d p.part_id (msD p)) []

/-- The aggregator's independently computed `low_stock_parts`: iterate the
min-stock dictionary and count the entries whose fetched quantity is strictly
below the threshold. -/
def analysis_low_stock_parts (parts : List PartRow) (invdb : List InvRow) : Nat :=
  ((minStockData parts).filter
    (fun e => decide (qget (get_inventory_data invdb (parts.map (fun p => p.part_id))) e.1
      < e.2))).length

theorem msUpsert_fresh (st : List (Nat × Int)) (k : Nat) (v : Int)
    (h : k ∉ st.map (fun e => e.1)) : msUpsert st k v = st ++ [(k, v)] := by
  induction st with
  | nil => rfl
  | cons e rest ih =>
    have hne : ¬ e.1 = k := by
      intro hcon
      exact h (by rw [List.map_cons, hcon]; exact List.mem_cons_self _ _)
    unfold msUpsert
    rw [if_neg hne,
      ih (fun hm => h (by rw [List.map_cons]; exact List.mem_cons_of_mem _ hm))]
    rfl

theorem minStockData_go : ∀ (parts : List PartRow) (st : List (Nat × Int)),
    (∀ p ∈ parts, p.part_id ∉ st.map (fun e => e.1)) →
    (parts.map (fun p => p.part_id)).Nodup →
    parts.foldl (fun d p => msUpsert d p.part_id (msD p)) st
      = st ++ parts.map (fun p => (p.part_id, msD p))
  | [], st, _, _ => by simp
  | p :: rest, st, hfresh, hnd => by
    rw [List.foldl_cons,
      msUpsert_fresh st p.part_id (msD p) (hfresh p (List.mem_cons_self _ _))]
    have hp_notin_rest : p.part_id ∉ rest.map (fun q => q.part_id) := by
      have h2 := hnd
      rw [List.map_cons, List.nodup_cons] at h2
      exact h2.1
    have hnd2 : (rest.map (fun q => q.part_id)).Nodup := by
      have h2 := hnd
      rw [List.map_cons, List.nodup_cons] at h2
      exact h2.2
    have hfresh2 : ∀ q ∈ rest,
        q.part_id ∉ (st ++ [(p.part_id, msD p)]).map (fun e => e.1) := by
      intro q hq hmem
      rw [List.map_append] at hmem
      rcases List.mem_append.mp hmem with h | h
      · exact hfresh q (List.mem_cons_of_mem _ hq) h
      · have heq : q.part_id = p.part_id := by simpa using h
        exact hp_notin_rest (heq ▸ List.mem_map_of_mem _ hq)
    rw [minStockData_go rest (st ++ [(p.part_id, msD p)]) hfresh2 hnd2,
      List.append_assoc]
    rfl

theorem lowStockRecords_length (parts : List PartRow) (m : Nat → Option Int) :
    (lowStockRecords parts m).length
      = (parts.filter (fun p => decide (qget m p.part_id < msD p))).length := by
  induction parts with
  | nil => rfl
  | cons p rest ih =>
    unfold lowStockRecords at ih ⊢
    rw [List.filterMap_cons, List.filter_cons]
    by_cases h : qget m p.part_id < msD p
    · rw [if_pos h, if_pos (by simpa using h)]
      simp only [List.length_cons, ih]
    · rw [if_neg h, if_neg (by simpa using h), ih]

/-- C6: on one backend snapshot (one parts table with primary-key-unique part
ids and one inventory table), the `low_stock_parts` count computed inside
`get_inventory_analysis_data` equals the length of the list returned by
`get_low_stock_items`: the two separately implemented code paths agree. -/
theorem aggregator_low_stock_count_agrees (parts : List PartRow) (invdb : List InvRow)
    (hnd : (parts.map (fun p => p.part_id)).Nodup) :
    analysis_low_stock_parts parts invdb = (get_low_stock_items parts invdb).length := by
  unfold analysis_low_stock_parts minStockData
  rw [minStockData_go parts [] (by intro p _ h; cases h) hnd, List.nil_append,
    List.filter_map, List.length_map, get_inventory_data_eq_core]
  unfold get_low_stock_items
  by_cases hne : parts.isEmpty
  · rw [if_pos hne, List.isEmpty_iff.mp hne]
    rfl
  · rw [if_neg hne, (List.mergeSort_perm _ lsLe).length_eq, lowStockRecords_length]
    refine congrArg List.length (List.filter_congr ?_)
    intro p _
    rfl

/-- Witness for C6 at the spec scenario snapshot. -/
theorem aggregator_low_stock_count_agrees_witness :
    analysis_low_stock_parts scenarioParts scenarioInv
      = (get_low_stock_items scenarioParts scenarioInv).length :=
  aggregator_low_stock_count_agrees scenarioParts scenarioInv (by decide)

/-- `get_inventory_data` with the per-batch `try/except` made explicit:
`ok j` says whether the query for batch index `j` succeeds.  A failed batch is
logged and skipped — the loop continues with the dictionary unchanged — and
the merged partial dictionary is still returned (the function never raises). -/
def get_inventory_dataF (invdb : List InvRow) (part_ids : List Nat) (ok : Nat → Bool) :
    Nat → Option Int :=
  if part_ids.isEmpty then dempty
  else
    ((chunks 30 part_ids).enum).foldl
      (fun m ib =>
        if ok ib.1 then
          mergeRows m ((invdb.filter (fun r => decide (r.part_id ∈ ib.2))).map
            (fun r => (r.part_id, r.current_quantity)))
        else m) dempty

/-- The batches whose query succeeded, in order. -/
def succBatches (part_ids : List Nat) (ok : Nat → Bool) : List (List Nat) :=
  (((chunks 30 part_ids).enum).filter (fun ib => ok ib.1)).map (fun ib => ib.2)

theorem foldSkip_eq_filter (invdb : List InvRow) (l : List (Nat × List Nat))
    (ok : Nat → Bool) (m : Nat → Option Int) :
    l.foldl (fun m ib =>
        if ok ib.1 then
          mergeRows m ((invdb.filter (fun r => decide (r.part_id ∈ ib.2))).map
            (fun r => (r.part_id, r.current_quantity)))
        else m) m
      = ((l.filter (fun ib => ok ib.1)).map (fun ib => ib.2)).foldl
          (fun m b => mergeRows m ((invPairs invdb).filter (fun r => decide (r.1 ∈ b)))) m := by
  induction l generalizing m with
  | nil => rfl
  | cons ib rest ih =>
    rw [List.foldl_cons, List.filter_cons]
    by_cases h : ok ib.1
    · rw [if_pos h, if_pos (by simpa using h), List.map_cons, List.foldl_cons, ih,
        invRows_comm]
    · rw [if_neg h, if_neg (by simpa using h), ih]

/-- C7: if the query of some batch fails, the Batch Fetcher does not raise and
still returns the dictionary merged from exactly the batches that succeeded,
in order; an identifier contained only in failed batches is absent from the
result map (not zero-filled), while an identifier of a succeeded batch still
resolves to its single-query value. -/
theorem batch_failure_partial_results (invdb : List InvRow) (part_ids : List Nat)
    (ok : Nat → Bool) :
    get_inventory_dataF invdb part_ids ok
      = (succBatches part_ids ok).foldl
          (fun m b => mergeRows m ((invPairs invdb).filter (fun r => decide (r.1 ∈ b))))
          dempty ∧
    (∀ k : Nat, (∀ ib ∈ (chunks 30 part_ids).enum, ok ib.1 = true → k ∉ ib.2) →
      get_inventory_dataF invdb part_ids ok k = none) ∧
    (∀ k : Nat, (∃ ib ∈ (chunks 30 part_ids).enum, ok ib.1 = true ∧ k ∈ ib.2) →
      get_inventory_dataF invdb part_ids ok k = lastVal k (invPairs invdb)) := by
  have heq : get_inventory_dataF invdb part_ids ok
      = (succBatches part_ids ok).foldl
          (fun m b => mergeRows m ((invPairs invdb).filter (fun r => decide (r.1 ∈ b))))
          dempty := by
    unfold get_inventory_dataF succBatches
    by_cases h : part_ids.isEmpty
    · rw [if_pos h, List.isEmpty_iff.mp h, chunks_nil]
      rfl
    · rw [if_neg h, foldSkip_eq_filter]
  have happ : ∀ k, get_inventory_dataF invdb part_ids ok k
      = if ∃ b ∈ succBatches part_ids ok, k ∈ b
        then (lastVal k (invPairs invdb)).or (dempty k) else dempty k := by
    intro k
    rw [heq]
    exact foldBatches_apply (invPairs invdb) (succBatches part_ids ok) dempty k
  refine ⟨heq, ?_, ?_⟩
  · intro k hk
    have hnot : ¬ ∃ b ∈ succBatches part_ids ok, k ∈ b := by
      rintro ⟨b, hb, hkb⟩
      unfold succBatches at hb
      rw [List.mem_map] at hb
      obtain ⟨ib, hib, hfb⟩ := hb
      rw [List.mem_filter] at hib
      exact hk ib hib.1 hib.2 (hfb ▸ hkb)
    rw [happ k, if_neg hnot]
    rfl
  · intro k hk
    have hyes : ∃ b ∈ succBatches part_ids ok, k ∈ b := by
      obtain ⟨ib, hib, hok, hkb⟩ := hk
      refine ⟨ib.2, ?_, hkb⟩
      unfold succBatches
      rw [List.mem_map]
      exact ⟨ib, List.mem_filter.mpr ⟨hib, hok⟩, rfl⟩
    rw [happ k, if_pos hyes]
    show (lastVal k (invPairs invdb)).or none = _
    exact Option.or_none

/-- Witness for C7: ids 0..30 form two batches; the second batch's query
fails.  Id 30 (only in the failed batch) is absent; id 5 (in the succeeded
batch) still resolves to its row's value. -/
theorem batch_failure_partial_results_witness :
    get_inventory_dataF [⟨5, some 9⟩, ⟨30, some 4⟩] (List.range 31)
        (fun j => decide (j = 0)) 30 = none ∧
    get_inventory_dataF [⟨5, some 9⟩, ⟨30, some 4⟩] (List.range 31)
        (fun j => decide (j = 0)) 5
      = lastVal 5 (invPairs [⟨5, some 9⟩, ⟨30, some 4⟩]) := by
  have h := batch_failure_partial_results [⟨5, some 9⟩, ⟨30, some 4⟩] (List.range 31)
    (fun j => decide (j = 0))
  exact ⟨h.2.1 30 (by decide), h.2.2 5 (by decide)⟩

/-- Events of the part-creation submission handler of `show_parts_add`,
in execution order. -/
inductive PEvent where
  | queryDupCheck (code : String)
  | errorShown (msg : String)
  | insertPart
  | insertInventory
  | successShown
deriving DecidableEq

/-- The required form fields the handler validates. -/
structure PartForm where
  part_code : String
  part_name : String
deriving DecidableEq

/-- The rows the uniqueness check
`from_("parts").select("part_id").eq("part_code", part_code)` returns. -/
def dupRows (db : List PartRow) (code : String) : List Nat :=
  (db.filter (fun r => r.part_code == code)).map (fun r => r.part_id)

/-- The submission branch of `show_parts_add`, as the ordered list of
user-visible effects and backend calls it performs: required-field checks
first (no backend call), then the duplicate-code query; only when that query
returns no rows is the part inserted, and only after a part insert that
returns data is the initial inventory row inserted.  `insertOk` abstracts
whether the insert call returns data. -/
def show_parts_add_submit (form : PartForm) (db : List PartRow) (insertOk : Bool) :
    List PEvent :=
  if form.part_code = "" then [PEvent.errorShown "missing_part_code"]
  else if form.part_name = "" then [PEvent.errorShown "missing_part_name"]
  else if dupRows db form.part_code ≠ [] then
    [PEvent.queryDupCheck form.part_code, PEvent.errorShown "duplicate_code"]
  else if insertOk then
    [PEvent.queryDupCheck form.part_code, PEvent.insertPart, PEvent.insertInventory,
      PEvent.successShown]
  else
    [PEvent.queryDupCheck form.part_code, PEvent.insertPart,
      PEvent.errorShown "insert_failed"]

/-- C8: a submission whose code already exists in the parts table is rejected:
an error is shown and neither the part row nor the inventory row is inserted;
and whenever an insert happens, the uniqueness query came first and returned
no rows. -/
theorem duplicate_code_rejected_before_insert (form : PartForm) (db : List PartRow)
    (insertOk : Bool) :
    ((∃ r ∈ db, r.part_code = form.part_code) →
      (∃ msg, PEvent.errorShown msg ∈ show_parts_add_submit form db insertOk) ∧
      PEvent.insertPart ∉ show_parts_add_submit form db insertOk ∧
      PEvent.insertInventory ∉ show_parts_add_submit form db insertOk) ∧
    (PEvent.insertPart ∈ show_parts_add_submit form db insertOk →
      dupRows db form.part_code = [] ∧
      (show_parts_add_submit form db insertOk).head?
        = some (PEvent.queryDupCheck form.part_code)) := by
  unfold show_parts_add_submit
  by_cases hc : form.part_code = ""
  · rw [if_pos hc]
    exact ⟨fun _ => ⟨⟨"missing_part_code", List.mem_singleton.mpr rfl⟩,
      by decide, by decide⟩, fun hmem => absurd hmem (by decide)⟩
  · rw [if_neg hc]
    by_cases hn : form.part_name = ""
    · rw [if_pos hn]
      exact ⟨fun _ => ⟨⟨"missing_part_name", List.mem_singleton.mpr rfl⟩,
        by decide, by decide⟩, fun hmem => absurd hmem (by decide)⟩
    · rw [if_neg hn]
      by_cases hd : dupRows db form.part_code ≠ []
      · rw [if_pos hd]
        refine ⟨fun _ => ⟨⟨"duplicate_code", by simp⟩, by simp, by simp⟩, ?_⟩
        intro hmem
        simp at hmem
      · rw [if_neg hd]
        have hdup : dupRows db form.part_code = [] := not_not.mp hd
        constructor
        · intro hex
          exfalso
          obtain ⟨r, hr, hcode⟩ := hex
          have hmem : r.part_id ∈ dupRows db form.part_code := by
            unfold dupRows
            rw [List.mem_map]
            exact ⟨r, List.mem_filter.mpr ⟨hr, beq_iff_eq.mpr hcode⟩, rfl⟩
          rw [hdup] at hmem
          cases hmem
        · intro _
          by_cases hins : insertOk
          · rw [if_pos hins]
            exact ⟨hdup, rfl⟩
          · rw [if_neg hins]
            exact ⟨hdup, rfl⟩

/-- A parts-table row whose code collides with the submitted form. -/
def dupDbRow : PartRow := ⟨1, "A", "EXISTING", none, none, none, none, none, none⟩

/-- Witness for C8: submitting code "A" against a table already holding code
"A" shows an error and performs no insert. -/
theorem duplicate_code_rejected_before_insert_witness :
    (∃ msg, PEvent.errorShown msg ∈ show_parts_add_submit ⟨"A", "B"⟩ [dupDbRow] true) ∧
    PEvent.insertPart ∉ show_parts_add_submit ⟨"A", "B"⟩ [dupDbRow] true := by
  have h := duplicate_code_rejected_before_insert ⟨"A", "B"⟩ [dupDbRow] true
  have h2 := h.1 ⟨dupDbRow, List.mem_singleton.mpr rfl, rfl⟩
  exact ⟨h2.1, h2.2.1⟩

/-- Whether an event is a backend call (query or insert). -/
def isBackendCall : PEvent → Bool
  | PEvent.queryDupCheck _ => true
  | PEvent.insertPart => true
  | PEvent.insertInventory => true
  | _ => false

/-- Whether an event is a user-visible error message. -/
def isErrorShown : PEvent → Bool
  | PEvent.errorShown _ => true
  | _ => false

/-- C9 as claimed, for one trace: some error is shown and no backend call
precedes the first error. -/
def surfacedBeforeAnyBackendCall (tr : List PEvent) : Bool :=
  tr.any isErrorShown &&
    (tr.takeWhile (fun e => !(isErrorShown e))).all (fun e => !(isBackendCall e))

/-- Counterexample to C9 as stated: the duplicate-code validation failure is
only detected by the uniqueness-check query, which is itself a backend call
executed before the error is surfaced. -/
theorem validation_before_backend_call_cex :
    (∃ r ∈ ([dupDbRow] : List PartRow), r.part_code = ("A" : String)) ∧
    show_parts_add_submit ⟨"A", "B"⟩ [dupDbRow] true
      = [PEvent.queryDupCheck "A", PEvent.errorShown "duplicate_code"] ∧
    surfacedBeforeAnyBackendCall (show_parts_add_submit ⟨"A", "B"⟩ [dupDbRow] true)
      = false :=
  ⟨⟨dupDbRow, List.mem_singleton.mpr rfl, rfl⟩, by decide, by decide⟩

/-- C9 (amended): a missing-required-field failure is surfaced before any
backend call; a duplicate-code failure is surfaced before any insert call,
though necessarily after the uniqueness-check query itself. -/
theorem validation_failures_surfaced_amended (form : PartForm) (db : List PartRow)
    (insertOk : Bool) :
    (form.part_code = "" →
      show_parts_add_submit form db insertOk = [PEvent.errorShown "missing_part_code"]) ∧
    (form.part_code ≠ "" → form.part_name = "" →
      show_parts_add_submit form db insertOk = [PEvent.errorShown "missing_part_name"]) ∧
    (form.part_code ≠ "" → form.part_name ≠ "" → dupRows db form.part_code ≠ [] →
      show_parts_add_submit form db insertOk
        = [PEvent.queryDupCheck form.part_code, PEvent.errorShown "duplicate_code"] ∧
      PEvent.insertPart ∉ show_parts_add_submit form db insertOk ∧
      PEvent.insertInventory ∉ show_parts_add_submit form db insertOk) := by
  refine ⟨?_, ?_, ?_⟩
  · intro hc
    unfold show_parts_add_submit
    rw [if_pos hc]
  · intro hc hn
    unfold show_parts_add_submit
    rw [if_neg hc, if_pos hn]
  · intro hc hn hd
    unfold show_parts_add_submit
    rw [if_neg hc, if_neg hn, if_pos hd]
    exact ⟨rfl, by simp, by simp⟩

/-- Witness for the amended C9, one concrete input per branch. -/
theorem validation_failures_surfaced_amended_witness :
    show_parts_add_submit ⟨"", "B"⟩ [] true = [PEvent.errorShown "missing_part_code"] ∧
    show_parts_add_submit ⟨"A", ""⟩ [] true = [PEvent.errorShown "missing_part_name"] ∧
    show_parts_add_submit ⟨"A", "B"⟩ [dupDbRow] true
      = [PEvent.queryDupCheck "A", PEvent.errorShown "duplicate_code"] := by
  refine ⟨(validation_failures_surfaced_amended ⟨"", "B"⟩ [] true).1 rfl,
    (validation_failures_surfaced_amended ⟨"A", ""⟩ [] true).2.1 (by decide) rfl,
    ((validation_failures_surfaced_amended ⟨"A", "B"⟩ [dupDbRow] true).2.2
      (by decide) (by decide) (by decide)).1⟩

end CNCMT
